import Mathlib

/-
Verification of the segmented commit-graph engine (the dag subsystem).
The repository ships the subsystem's test file (src/eden/scm/lib/dag/src/tests.rs)
while the implementation modules (spanset.rs, segment.rs, idmap.rs) are not part
of the source tree given here; the data model and the operations below are
therefore modelled from the specification, and every concrete expectation is
checked against the literal golden values of tests.rs.
-/

set_option linter.unusedVariables false
set_option maxRecDepth 16384

/-- Modelled from the spec: spanset.rs is missing from the tree. A Span is a
closed interval of non-negative ids with endpoints low and high. -/
structure Span where
  low : Nat
  high : Nat
deriving DecidableEq, Repr

/-- Modelled from the spec: a Span is well formed when low is at most high. -/
def Span.valid (s : Span) : Prop := s.low ≤ s.high

instance (s : Span) : Decidable s.valid := by
  unfold Span.valid; infer_instance

/-- Modelled from the spec: a SpanSet is a sequence of Spans kept in strictly
decreasing order of high, pairwise disjoint and never adjacent. -/
abbrev SpanSet := List Span

namespace SpanSet

/-- Modelled from the spec: membership of an id in a SpanSet, the contains
query of spanset.rs. -/
def contains (x : SpanSet) (i : Nat) : Prop := ∃ s ∈ x, s.low ≤ i ∧ i ≤ s.high

instance (x : SpanSet) (i : Nat) : Decidable (contains x i) :=
  List.decidableBEx _ x

/-- Modelled from the spec: the normalization invariant of a SpanSet, spans in
strictly decreasing order of high, pairwise disjoint and never adjacent
(consecutive spans are separated by a gap of at least one id). -/
def Normalized (x : SpanSet) : Prop :=
  (∀ s ∈ x, s.valid) ∧ x.Pairwise (fun a b => b.high + 1 < a.low)

instance (x : SpanSet) : Decidable (Normalized x) := by
  unfold Normalized; exact instDecidableAnd

/-- Modelled from the spec: the empty SpanSet. -/
def empty : SpanSet := []

/-- Modelled from the spec: insert one span into a normalized SpanSet, merging
with every overlapping or adjacent span so the result stays normalized. -/
def insertSpan : SpanSet → Span → SpanSet
  | [], sp => [sp]
  | a :: rest, sp =>
    if a.high + 1 < sp.low then sp :: a :: rest
    else if sp.high + 1 < a.low then a :: insertSpan rest sp
    else insertSpan rest ⟨min a.low sp.low, max a.high sp.high⟩

/-- Modelled from the spec: from_spans builds a SpanSet from arbitrary spans,
normalizing (sorting descending, merging, deduplicating). -/
def from_spans (l : List Span) : SpanSet := l.foldl insertSpan []

/-- Modelled from the spec: push_span appends a span that is at or below all
existing spans, merging on adjacency. -/
def push_span (x : SpanSet) (sp : Span) : SpanSet := insertSpan x sp

/-- Modelled from the spec: union of two SpanSets; the result is normalized. -/
def union (x y : SpanSet) : SpanSet := y.foldl insertSpan x

/-- Modelled from the spec: intersection of two SpanSets; the result is
normalized. -/
def intersection (x y : SpanSet) : SpanSet :=
  from_spans (x.flatMap (fun a => y.filterMap (fun b =>
    if Nat.max a.low b.low ≤ Nat.min a.high b.high
    then some ⟨Nat.max a.low b.low, Nat.min a.high b.high⟩ else none)))

/-- Modelled from the spec: the pieces of span a that are outside span b. -/
def spanMinus (a b : Span) : List Span :=
  (if 0 < b.low ∧ a.low ≤ b.low - 1 then [⟨a.low, Nat.min a.high (b.low - 1)⟩] else [])
  ++ (if b.high + 1 ≤ a.high then [⟨Nat.max a.low (b.high + 1), a.high⟩] else [])

/-- Modelled from the spec: difference of two SpanSets; the result is
normalized. -/
def difference (x y : SpanSet) : SpanSet :=
  from_spans (y.foldl (fun ps b => ps.flatMap (fun a => spanMinus a b)) x)

/-- Modelled from the spec: the largest id of a SpanSet, none when empty; the
first stored span carries the largest high. -/
def max : SpanSet → Option Nat
  | [] => none
  | s :: _ => some s.high

/-- Modelled from the spec and the golden tests: one token run of the textual
debug format; the golden outputs of tests.rs print a span of up to three ids as
the individual ids separated by spaces (for example 0 1, or 9 10 11) and a
longer span as low..=high. -/
def fmtSpan (s : Span) : String :=
  if s.low + 3 ≤ s.high then toString s.low ++ "..=" ++ toString s.high
  else String.intercalate " "
    ((List.range (s.high + 1 - s.low)).map (fun k => toString (s.low + k)))

/-- Modelled from the spec: the SpanSet textual debug format, ascending
space-separated tokens, the empty set printing as the empty string. -/
def fmt (x : SpanSet) : String := String.intercalate " " (x.reverse.map fmtSpan)

end SpanSet

/-- Modelled from the spec: the ancestry relation of the graph described by a
parent callback, the reflexive transitive closure of the parent edges; the
guard p lt b mirrors the topological id assignment, a parent id is smaller
than the id of its child. -/
inductive Anc (gp : Nat → List Nat) : Nat → Nat → Prop
  | refl (a : Nat) : Anc gp a a
  | step {a p b : Nat} : p ∈ gp b → p < b → Anc gp a p → Anc gp a b

/-- Modelled from the spec: fuel-indexed decision procedure for ancestry. -/
def isAncGo (gp : Nat → List Nat) (a : Nat) : Nat → Nat → Bool
  | 0, b => a == b
  | fuel + 1, b => a == b || (gp b).any (fun p => decide (p < b) && isAncGo gp a fuel p)

/-- Modelled from the spec: is_ancestor as a boolean query, a is an ancestor of
b when a reaches b through parent edges (true also when a equals b). -/
def isAnc (gp : Nat → List Nat) (a b : Nat) : Bool := isAncGo gp a b b

/-- Modelled from the spec: the SpanSet of all ids below n satisfying a
decidable predicate. -/
def setOfPred (n : Nat) (p : Nat → Prop) [DecidablePred p] : SpanSet :=
  SpanSet.from_spans (((List.range n).filter (fun j => decide (p j))).map
    (fun j => ⟨j, j⟩))

namespace Dag

/-- Modelled from the spec: parents(set) yields, for each id in the set, all of
its parents; ids at or above next_free_id are out of range. -/
def parents (gp : Nat → List Nat) (n : Nat) (S : SpanSet) : SpanSet :=
  setOfPred n (fun p => ∃ j ∈ List.range n, SpanSet.contains S j ∧ p ∈ gp j)

/-- Modelled from the spec: children(set) yields the ids having a parent in the
set. -/
def children (gp : Nat → List Nat) (n : Nat) (S : SpanSet) : SpanSet :=
  setOfPred n (fun j => ∃ p ∈ gp j, SpanSet.contains S p)

/-- Modelled from the spec: heads(set), the members of the set that are not a
parent of any member of the set. -/
def heads (gp : Nat → List Nat) (n : Nat) (S : SpanSet) : SpanSet :=
  setOfPred n (fun i => SpanSet.contains S i ∧
    ∀ j ∈ List.range n, SpanSet.contains S j → i ∉ gp j)

/-- Modelled from the spec: roots(set), the members of the set having no parent
inside the set. -/
def roots (gp : Nat → List Nat) (n : Nat) (S : SpanSet) : SpanSet :=
  setOfPred n (fun i => SpanSet.contains S i ∧ ∀ p ∈ gp i, ¬ SpanSet.contains S p)

/-- Modelled from the spec: ancestors(set), every id reaching a member of the
set through parent edges. -/
def ancestors (gp : Nat → List Nat) (n : Nat) (S : SpanSet) : SpanSet :=
  setOfPred n (fun j => ∃ i ∈ List.range n, SpanSet.contains S i ∧ isAnc gp j i = true)

/-- Modelled from the spec: descendants(set), every id reached from a member of
the set through child edges. -/
def descendants (gp : Nat → List Nat) (n : Nat) (S : SpanSet) : SpanSet :=
  setOfPred n (fun j => ∃ i ∈ List.range n, SpanSet.contains S i ∧ isAnc gp i j = true)

/-- Modelled from the spec: range(roots, heads) is descendants(roots)
intersected with ancestors(heads). -/
def range (gp : Nat → List Nat) (n : Nat) (R H : SpanSet) : SpanSet :=
  SpanSet.intersection (descendants gp n R) (ancestors gp n H)

/-- Modelled from the spec: all() is the SpanSet 0..=next_free_id(0)-1. -/
def all (n : Nat) : SpanSet := if n = 0 then [] else [⟨0, n - 1⟩]

/-- Modelled from the spec: gca_all((a, b)) is heads(ancestors(a) intersected
with ancestors(b)). -/
def gca_all (gp : Nat → List Nat) (n : Nat) (a b : Nat) : SpanSet :=
  heads gp n (SpanSet.intersection (ancestors gp n [⟨a, a⟩]) (ancestors gp n [⟨b, b⟩]))

/-- Modelled from the spec: gca_one((a, b)) returns the element of gca_all with
the largest id, the tie-break contract stated by the spec. -/
def gca_one (gp : Nat → List Nat) (n : Nat) (a b : Nat) : Option Nat :=
  SpanSet.max (gca_all gp n a b)

/-- Modelled from the spec: is_ancestor(a, b) holds when a is in
ancestors(set of b). -/
def is_ancestor (gp : Nat → List Nat) (n : Nat) (a b : Nat) : Bool := isAnc gp a b

end Dag

/-- Modelled from the spec: a segment record with its id interval, its external
parent list and its root flag (segment.rs is missing from the tree; the level
is implicit in the position inside the level list). -/
structure Segment where
  low : Nat
  high : Nat
  parents : List Nat
  root : Bool
deriving DecidableEq, Repr

namespace Dag

/-- Modelled from the spec: the ids at which the level-0 walk must start a new
segment, id 0 and every id whose parent list is not exactly the previous id. -/
def segStarts (gp : Nat → List Nat) (n : Nat) : List Nat :=
  (List.range n).filter (fun i => decide (i = 0 ∨ gp i ≠ [i - 1]))

/-- Modelled from the spec: turn the sorted list of start ids into the flat
level-0 segments, each ending right before the next start (the last ending at
n - 1), with the parent callback's list of the low id as external parents and
the root flag set when that list is empty. -/
def flatFromStarts (gp : Nat → List Nat) (n : Nat) : List Nat → List Segment
  | [] => []
  | [s] => [⟨s, n - 1, gp s, (gp s).isEmpty⟩]
  | s :: s2 :: rest => ⟨s, s2 - 1, gp s, (gp s).isEmpty⟩ :: flatFromStarts gp n (s2 :: rest)

/-- Modelled from the spec: the level-0 pass of build_segments_volatile over
ids 0..=n-1. -/
def build_flat (gp : Nat → List Nat) (n : Nat) : List Segment :=
  flatFromStarts gp n (segStarts gp n)

/-- Modelled from the spec: the largest count of consecutive lower-level
segments, at most size, whose union has a single head; the running head set
drops every id referenced as a parent by a later constituent. -/
def bestLen (size : Nat) (segs : List Segment) : Nat :=
  ((segs.take size).foldl
    (fun (st : List Nat × Nat × Nat) s =>
      let hd := (st.1.filter (fun h => ¬ s.parents.contains h)) ++ [s.high]
      let idx := st.2.1 + 1
      (hd, idx, if hd.length = 1 then idx else st.2.2))
    ([], 0, 0)).2.2

/-- Modelled from the spec: the external parents of a merged run, the
first-occurrence union of the constituents' parents minus the ids absorbed by
the merge. -/
def groupParents (grp : List Segment) : List Nat :=
  let low := ((grp.head?).map Segment.low).getD 0
  let high := ((grp.getLast?).map Segment.high).getD 0
  let acc := grp.foldl
    (fun acc s => s.parents.foldl (fun a p => if a.contains p then a else a ++ [p]) acc) []
  acc.filter (fun p => decide (p < low) || decide (high < p))

/-- Modelled from the spec: greedy merging pass producing the next level from
the list of lower-level segments. -/
def mergeGo (size : Nat) : Nat → List Segment → List Segment
  | 0, _ => []
  | _, [] => []
  | fuel + 1, s :: rest =>
    let k := Nat.max 1 (bestLen size (s :: rest))
    let grp := (s :: rest).take k
    let merged : Segment :=
      ⟨s.low, (((grp.getLast?).map Segment.high).getD s.high), groupParents grp, s.root⟩
    merged :: mergeGo size fuel ((s :: rest).drop k)

/-- Modelled from the spec: one higher-level pass over a full lower level. -/
def build_high (size : Nat) (segs : List Segment) : List Segment :=
  mergeGo size segs.length segs

/-- Modelled from the spec: iterate the higher-level passes, stopping when a
level keeps at most one segment or when a pass merges nothing. -/
def buildLevelsGo (size : Nat) : Nat → List Segment → List (List Segment)
  | 0, _ => []
  | fuel + 1, prev =>
    if prev.length ≤ 1 then []
    else
      let next := build_high size prev
      if next.length = prev.length then []
      else next :: buildLevelsGo size fuel next

/-- Modelled from the spec: build_segments_volatile up to head n - 1 with the
given segment size, returning every level from level 0 upward. -/
def build_segments (gp : Nat → List Nat) (n : Nat) (size : Nat) : List (List Segment) :=
  let l0 := build_flat gp n
  l0 :: buildLevelsGo size l0.length l0

end Dag

/-- Modelled from the spec: the textual debug format of one segment,
low-high[p1, p2, ...] prefixed with R when the segment is a root segment. -/
def Segment.fmt (s : Segment) : String :=
  (if s.root then "R" else "") ++ toString s.low ++ "-" ++ toString s.high
    ++ "[" ++ String.intercalate ", " (s.parents.map toString) ++ "]"

/-- Modelled from the spec: one line of the dag debug format. -/
def Dag.dumpLevel (i : Nat) (segs : List Segment) : String :=
  "Lv" ++ toString i ++ ": " ++ String.intercalate " " (segs.map Segment.fmt)

/-- Modelled from the spec: the dag textual debug format, one line per level. -/
def Dag.dump (levels : List (List Segment)) : String :=
  String.intercalate "\n" (levels.enum.map (fun p => Dag.dumpLevel p.1 p.2))

/-- Parent callback of ASCII_DAG1 of tests.rs under the id assignment shown by
the tests (A=0 B=1 C=2 D=3 E=4 F=5 G=6 H=7 I=8 J=9 K=10 L=11); the parent
lists and their order are the ones recorded in the golden level-0 segments. -/
def gpDag1 : Nat → List Nat
  | 1 => [0] | 3 => [2] | 4 => [1, 3] | 5 => [4] | 6 => [5] | 7 => [6]
  | 8 => [6] | 9 => [8] | 10 => [7, 9] | 11 => [10] | _ => []

/-- Parent callback of ASCII_DAG2 of tests.rs under the id assignment shown by
the tests (head W, 23 ids); every parent list here is in ascending order. -/
def gpDag2 : Nat → List Nat
  | 1 => [0] | 2 => [1] | 3 => [2] | 4 => [1] | 5 => [4] | 6 => [3, 5]
  | 7 => [6] | 8 => [7] | 9 => [8] | 10 => [9] | 11 => [7] | 12 => [11]
  | 13 => [5, 9] | 14 => [13] | 15 => [12, 14] | 16 => [10, 15] | 17 => [16]
  | 19 => [4] | 20 => [18, 19] | 21 => [17, 20] | 22 => [21] | _ => []

/-- Parent callback of the graph of test_segment_multiple_gcas in tests.rs
under the id assignment shown by the test (A=0 B=1 C=2 D=3): C and D each have
parents A and B. -/
def gpDia : Nat → List Nat
  | 2 => [0, 1] | 3 => [0, 1] | _ => []

/-- Parent callback of the diamond graph literally described by the claim,
edges A to B, A to D, B to C, D to C, under the deterministic id assignment of
assign_head from head C (A=0 B=1 D=2 C=3). -/
def gpDiaClaim : Nat → List Nat
  | 1 => [0] | 2 => [0] | 3 => [1, 2] | _ => []

/-- Parent callback of the graph of test_heads in tests.rs under the id
assignment shown by the test. -/
def gpHeads : Nat → List Nat
  | 1 => [0] | 2 => [1] | 4 => [3] | 5 => [3] | 6 => [4, 5]
  | 8 => [7] | 9 => [8] | 10 => [8] | 11 => [7] | _ => []

/-- Parent callback of the graph of test_roots in tests.rs under the id
assignment shown by the test. -/
def gpRoots : Nat → List Nat
  | 1 => [0] | 2 => [1] | 4 => [3] | 5 => [3] | 6 => [4, 5]
  | 9 => [7, 8] | 11 => [9, 10] | _ => []

/-- Parent callback of the graph of test_range in tests.rs under the id
assignment shown by the test. -/
def gpRange : Nat → List Nat
  | 2 => [0, 1] | 3 => [2] | 6 => [1, 4, 5] | 7 => [2, 6] | 8 => [6]
  | 9 => [3, 7, 8] | _ => []

namespace SpanSet

theorem contains_nil (i : Nat) : ¬ contains [] i := by
  simp [contains]

theorem contains_cons {a : Span} {x : SpanSet} {i : Nat} :
    contains (a :: x) i ↔ (a.low ≤ i ∧ i ≤ a.high) ∨ contains x i := by
  simp [contains]

theorem Normalized.tail {a : Span} {x : SpanSet} (h : Normalized (a :: x)) :
    Normalized x :=
  ⟨fun s hs => h.1 s (List.mem_cons_of_mem a hs), (List.pairwise_cons.mp h.2).2⟩

theorem Normalized.head_valid {a : Span} {x : SpanSet} (h : Normalized (a :: x)) :
    a.low ≤ a.high :=
  h.1 a (List.mem_cons_self a x)

theorem Normalized.nil : Normalized [] := ⟨by simp, List.Pairwise.nil⟩

theorem contains_tail_lt {a : Span} {x : SpanSet} {i : Nat}
    (h : Normalized (a :: x)) (hi : contains x i) : i + 1 < a.low := by
  obtain ⟨s, hs, h1, h2⟩ := hi
  have h3 := (List.pairwise_cons.mp h.2).1 s hs
  omega

theorem contains_le_high {a : Span} {x : SpanSet} {i : Nat}
    (h : Normalized (a :: x)) (hi : contains (a :: x) i) : i ≤ a.high := by
  rcases contains_cons.mp hi with ⟨h1, h2⟩ | hx
  · exact h2
  · have h3 := contains_tail_lt h hx
    have h4 := h.head_valid
    omega

theorem contains_head_high {a : Span} {x : SpanSet} (h : Normalized (a :: x)) :
    contains (a :: x) a.high :=
  ⟨a, List.mem_cons_self a x, h.head_valid, le_rfl⟩

theorem not_contains_pred {a : Span} {x : SpanSet}
    (h : Normalized (a :: x)) (h0 : 0 < a.low) : ¬ contains (a :: x) (a.low - 1) := by
  intro hc
  rcases contains_cons.mp hc with ⟨h1, h2⟩ | hx
  · omega
  · have h3 := contains_tail_lt h hx
    omega

theorem merge_valid {a sp : Span} (hva : a.valid) (hsp : sp.valid) :
    Span.valid ⟨Nat.min a.low sp.low, Nat.max a.high sp.high⟩ := by
  simp only [Span.valid] at *
  simp only [Nat.min_def, Nat.max_def]
  split_ifs <;> omega

theorem mem_merge_iff {a sp : Span} (hva : a.valid) (hsp : sp.valid)
    (h1 : sp.low ≤ a.high + 1) (h2 : a.low ≤ sp.high + 1) (i : Nat) :
    (Nat.min a.low sp.low ≤ i ∧ i ≤ Nat.max a.high sp.high) ↔
      ((a.low ≤ i ∧ i ≤ a.high) ∨ (sp.low ≤ i ∧ i ≤ sp.high)) := by
  simp only [Span.valid] at hva hsp
  simp only [Nat.min_def, Nat.max_def]
  split_ifs <;> omega

theorem contains_insertSpan :
    ∀ (x : SpanSet) (sp : Span) (i : Nat), (∀ s ∈ x, s.valid) → sp.valid →
      (contains (insertSpan x sp) i ↔ contains x i ∨ (sp.low ≤ i ∧ i ≤ sp.high)) := by
  intro x
  induction x with
  | nil =>
    intro sp i hv hsp
    simp [insertSpan, contains]
  | cons a rest ih =>
    intro sp i hv hsp
    have hva : a.valid := hv a (List.mem_cons_self a rest)
    have hvr : ∀ s ∈ rest, s.valid := fun s hs => hv s (List.mem_cons_of_mem a hs)
    simp only [insertSpan]
    split
    · rename_i h1
      simp only [contains_cons]
      tauto
    · split
      · rename_i h1 h2
        rw [contains_cons, contains_cons, ih sp i hvr hsp]
        tauto
      · rename_i h1 h2
        have hm := merge_valid hva hsp
        rw [ih _ i hvr hm, contains_cons]
        rw [show (⟨Nat.min a.low sp.low, Nat.max a.high sp.high⟩ : Span).low
              = Nat.min a.low sp.low from rfl,
            show (⟨Nat.min a.low sp.low, Nat.max a.high sp.high⟩ : Span).high
              = Nat.max a.high sp.high from rfl,
            mem_merge_iff hva hsp (by omega) (by omega)]
        tauto

theorem high_bound_insertSpan :
    ∀ (x : SpanSet) (sp : Span) (c : Nat), (∀ s ∈ x, s.high + 1 < c) →
      sp.high + 1 < c → ∀ t ∈ insertSpan x sp, t.high + 1 < c := by
  intro x
  induction x with
  | nil =>
    intro sp c hx hsp t ht
    simp [insertSpan] at ht
    subst ht
    exact hsp
  | cons a rest ih =>
    intro sp c hx hsp t ht
    have hxa := hx a (List.mem_cons_self a rest)
    have hxr : ∀ s ∈ rest, s.high + 1 < c := fun s hs => hx s (List.mem_cons_of_mem a hs)
    simp only [insertSpan] at ht
    split at ht
    · rcases List.mem_cons.mp ht with h | h
      · subst h; exact hsp
      · exact hx t h
    · split at ht
      · rcases List.mem_cons.mp ht with h | h
        · subst h; exact hxa
        · exact ih sp c hxr hsp t h
      · refine ih _ c hxr ?_ t ht
        show Nat.max a.high sp.high + 1 < c
        simp only [Nat.max_def]
        split_ifs <;> omega

theorem normalized_insertSpan :
    ∀ (x : SpanSet) (sp : Span), Normalized x → sp.valid →
      Normalized (insertSpan x sp) := by
  intro x
  induction x with
  | nil =>
    intro sp hx hsp
    exact ⟨by simpa [insertSpan] using hsp, by simp [insertSpan]⟩
  | cons a rest ih =>
    intro sp hx hsp
    have hva : a.valid := hx.head_valid
    have hp := List.pairwise_cons.mp hx.2
    simp only [insertSpan]
    split
    · rename_i h1
      refine ⟨?_, ?_⟩
      · intro s hs
        rcases List.mem_cons.mp hs with h | h
        · subst h; exact hsp
        · exact hx.1 s h
      · refine List.pairwise_cons.mpr ⟨?_, hx.2⟩
        intro s hs
        rcases List.mem_cons.mp hs with h | h
        · subst h; exact h1
        · have h2 := hp.1 s h
          have h3 : a.low ≤ a.high := hva
          omega
    · split
      · rename_i h1 h2
        have hrec := ih sp hx.tail hsp
        refine ⟨?_, ?_⟩
        · intro s hs
          rcases List.mem_cons.mp hs with h | h
          · subst h; exact hva
          · exact hrec.1 s h
        · refine List.pairwise_cons.mpr ⟨?_, hrec.2⟩
          intro s hs
          exact high_bound_insertSpan rest sp a.low hp.1 h2 s hs
      · rename_i h1 h2
        exact ih _ hx.tail (merge_valid hva hsp)

end SpanSet

namespace SpanSet

theorem foldl_insertSpan_spec :
    ∀ (l : List Span) (acc : SpanSet), Normalized acc → (∀ s ∈ l, s.valid) →
      Normalized (l.foldl insertSpan acc) ∧
      (∀ i, contains (l.foldl insertSpan acc) i ↔
        contains acc i ∨ ∃ s ∈ l, s.low ≤ i ∧ i ≤ s.high) := by
  intro l
  induction l with
  | nil =>
    intro acc hacc hl
    refine ⟨hacc, fun i => ?_⟩
    simp
  | cons b l2 ih =>
    intro acc hacc hl
    have hb : b.valid := hl b (List.mem_cons_self b l2)
    have hl2 : ∀ s ∈ l2, s.valid := fun s hs => hl s (List.mem_cons_of_mem b hs)
    have hacc2 : Normalized (insertSpan acc b) := normalized_insertSpan acc b hacc hb
    obtain ⟨hn, hc⟩ := ih (insertSpan acc b) hacc2 hl2
    refine ⟨hn, fun i => ?_⟩
    rw [List.foldl_cons] at *
    rw [hc i, contains_insertSpan acc b i hacc.1 hb]
    simp only [List.mem_cons]
    constructor
    · rintro ((h | h) | ⟨s, hs, h1, h2⟩)
      · exact Or.inl h
      · exact Or.inr ⟨b, Or.inl rfl, h⟩
      · exact Or.inr ⟨s, Or.inr hs, h1, h2⟩
    · rintro (h | ⟨s, rfl | hs, h1, h2⟩)
      · exact Or.inl (Or.inl h)
      · exact Or.inl (Or.inr ⟨h1, h2⟩)
      · exact Or.inr ⟨s, hs, h1, h2⟩

theorem normalized_from_spans (l : List Span) (hl : ∀ s ∈ l, s.valid) :
    Normalized (from_spans l) :=
  (foldl_insertSpan_spec l [] Normalized.nil hl).1

theorem contains_from_spans (l : List Span) (hl : ∀ s ∈ l, s.valid) (i : Nat) :
    contains (from_spans l) i ↔ ∃ s ∈ l, s.low ≤ i ∧ i ≤ s.high := by
  rw [from_spans, ((foldl_insertSpan_spec l [] Normalized.nil hl).2 i)]
  simp [contains]

theorem normalized_union (x y : SpanSet) (hx : Normalized x) (hy : Normalized y) :
    Normalized (union x y) :=
  (foldl_insertSpan_spec y x hx hy.1).1

theorem contains_union (x y : SpanSet) (hx : Normalized x) (hy : Normalized y) (i : Nat) :
    contains (union x y) i ↔ contains x i ∨ contains y i := by
  rw [union, ((foldl_insertSpan_spec y x hx hy.1).2 i)]
  rfl

theorem normalized_push_span (x : SpanSet) (sp : Span)
    (hx : Normalized x) (hsp : sp.valid) : Normalized (push_span x sp) :=
  normalized_insertSpan x sp hx hsp

theorem contains_push_span (x : SpanSet) (sp : Span)
    (hx : Normalized x) (hsp : sp.valid) (i : Nat) :
    contains (push_span x sp) i ↔ contains x i ∨ (sp.low ≤ i ∧ i ≤ sp.high) :=
  contains_insertSpan x sp i hx.1 hsp

theorem intersection_pieces_valid (x y : SpanSet) :
    ∀ s ∈ x.flatMap (fun a => y.filterMap (fun b =>
        if Nat.max a.low b.low ≤ Nat.min a.high b.high
        then some (⟨Nat.max a.low b.low, Nat.min a.high b.high⟩ : Span) else none)),
      s.valid := by
  intro s hs
  simp only [List.mem_flatMap, List.mem_filterMap] at hs
  obtain ⟨a, ha, b, hb, hab⟩ := hs
  split at hab
  · cases hab
    exact (by assumption : Nat.max a.low b.low ≤ Nat.min a.high b.high)
  · cases hab

theorem normalized_intersection (x y : SpanSet) : Normalized (intersection x y) :=
  normalized_from_spans _ (intersection_pieces_valid x y)

theorem contains_intersection (x y : SpanSet) (i : Nat) :
    contains (intersection x y) i ↔ contains x i ∧ contains y i := by
  rw [intersection, contains_from_spans _ (intersection_pieces_valid x y) i]
  simp only [List.mem_flatMap, List.mem_filterMap]
  constructor
  · rintro ⟨s, ⟨a, ha, b, hb, hab⟩, h1, h2⟩
    split at hab
    · rename_i hle
      cases hab
      have h3 : Nat.max a.low b.low ≤ i := h1
      have h4 : i ≤ Nat.min a.high b.high := h2
      have h5 : a.low ≤ i ∧ b.low ≤ i := by
        simp only [Nat.max_def] at h3; split_ifs at h3 <;> omega
      have h6 : i ≤ a.high ∧ i ≤ b.high := by
        simp only [Nat.min_def] at h4; split_ifs at h4 <;> omega
      exact ⟨⟨a, ha, h5.1, h6.1⟩, ⟨b, hb, h5.2, h6.2⟩⟩
    · cases hab
  · rintro ⟨⟨a, ha, ha1, ha2⟩, ⟨b, hb, hb1, hb2⟩⟩
    have hle : Nat.max a.low b.low ≤ Nat.min a.high b.high := by
      simp only [Nat.max_def, Nat.min_def]; split_ifs <;> omega
    refine ⟨⟨Nat.max a.low b.low, Nat.min a.high b.high⟩,
      ⟨a, ha, b, hb, by rw [if_pos hle]⟩, ?_, ?_⟩
    · show Nat.max a.low b.low ≤ i
      simp only [Nat.max_def]; split_ifs <;> omega
    · show i ≤ Nat.min a.high b.high
      simp only [Nat.min_def]; split_ifs <;> omega

theorem spanMinus_valid {a b : Span} (hva : a.valid) :
    ∀ s ∈ spanMinus a b, s.valid := by
  intro s hs
  have hv : a.low ≤ a.high := hva
  simp only [spanMinus, List.mem_append] at hs
  rcases hs with h | h
  · split at h
    · rename_i hc
      simp only [List.mem_singleton] at h
      subst h
      show a.low ≤ Nat.min a.high (b.low - 1)
      simp only [Nat.min_def]; split_ifs <;> omega
    · simp at h
  · split at h
    · rename_i hc
      simp only [List.mem_singleton] at h
      subst h
      show Nat.max a.low (b.high + 1) ≤ a.high
      simp only [Nat.max_def]; split_ifs <;> omega
    · simp at h

theorem contains_spanMinus {a b : Span} (hva : a.valid) (i : Nat) :
    contains (spanMinus a b) i ↔
      (a.low ≤ i ∧ i ≤ a.high) ∧ ¬ (b.low ≤ i ∧ i ≤ b.high) := by
  have hv : a.low ≤ a.high := hva
  simp only [spanMinus, contains, List.mem_append]
  constructor
  · rintro ⟨s, hs | hs, h1, h2⟩
    · split at hs
      · rename_i hc
        simp only [List.mem_singleton] at hs
        subst hs
        simp only at h1 h2
        have : i ≤ Nat.min a.high (b.low - 1) := h2
        simp only [Nat.min_def] at this; split_ifs at this <;> omega
      · simp at hs
    · split at hs
      · rename_i hc
        simp only [List.mem_singleton] at hs
        subst hs
        simp only at h1 h2
        have : Nat.max a.low (b.high + 1) ≤ i := h1
        simp only [Nat.max_def] at this; split_ifs at this <;> omega
      · simp at hs
  · rintro ⟨⟨h1, h2⟩, h3⟩
    rcases Nat.lt_or_ge i b.low with hlt | hge
    · refine ⟨⟨a.low, Nat.min a.high (b.low - 1)⟩, ?_, h1, ?_⟩
      · left
        rw [if_pos ⟨by omega, by omega⟩]
        exact List.mem_singleton.mpr rfl
      · show i ≤ Nat.min a.high (b.low - 1)
        simp only [Nat.min_def]; split_ifs <;> omega
    · have hbh : b.high < i := by omega
      refine ⟨⟨Nat.max a.low (b.high + 1), a.high⟩, ?_, ?_, h2⟩
      · right
        rw [if_pos (by omega)]
        exact List.mem_singleton.mpr rfl
      · show Nat.max a.low (b.high + 1) ≤ i
        simp only [Nat.max_def]; split_ifs <;> omega

theorem subtract_foldl_spec :
    ∀ (y : List Span) (ps : List Span), (∀ s ∈ ps, s.valid) →
      (∀ s ∈ y.foldl (fun ps b => ps.flatMap (fun a => spanMinus a b)) ps, s.valid) ∧
      (∀ i, contains (y.foldl (fun ps b => ps.flatMap (fun a => spanMinus a b)) ps) i ↔
        contains ps i ∧ ∀ b ∈ y, ¬ (b.low ≤ i ∧ i ≤ b.high)) := by
  intro y
  induction y with
  | nil =>
    intro ps hps
    refine ⟨hps, fun i => ?_⟩
    simp
  | cons b y2 ih =>
    intro ps hps
    have hstep : ∀ s ∈ ps.flatMap (fun a => spanMinus a b), s.valid := by
      intro s hs
      simp only [List.mem_flatMap] at hs
      obtain ⟨a, ha, hs2⟩ := hs
      exact spanMinus_valid (hps a ha) s hs2
    obtain ⟨hv, hc⟩ := ih (ps.flatMap (fun a => spanMinus a b)) hstep
    rw [List.foldl_cons]
    refine ⟨hv, fun i => ?_⟩
    rw [hc i]
    have hmem : contains (ps.flatMap (fun a => spanMinus a b)) i ↔
        contains ps i ∧ ¬ (b.low ≤ i ∧ i ≤ b.high) := by
      simp only [contains, List.mem_flatMap]
      constructor
      · rintro ⟨s, ⟨a, ha, hs⟩, h1, h2⟩
        have := (contains_spanMinus (hps a ha) i).mp ⟨s, hs, h1, h2⟩
        exact ⟨⟨a, ha, this.1.1, this.1.2⟩, this.2⟩
      · rintro ⟨⟨a, ha, h1, h2⟩, h3⟩
        obtain ⟨s, hs, h4, h5⟩ := (contains_spanMinus (hps a ha) i).mpr ⟨⟨h1, h2⟩, h3⟩
        exact ⟨s, ⟨a, ha, hs⟩, h4, h5⟩
    rw [hmem]
    simp only [List.mem_cons]
    constructor
    · rintro ⟨⟨h1, h2⟩, h3⟩
      refine ⟨h1, ?_⟩
      rintro c (rfl | hc2)
      · exact h2
      · exact h3 c hc2
    · rintro ⟨h1, h2⟩
      exact ⟨⟨h1, h2 b (Or.inl rfl)⟩, fun c hc2 => h2 c (Or.inr hc2)⟩

theorem normalized_difference (x y : SpanSet) (hx : Normalized x) :
    Normalized (difference x y) :=
  normalized_from_spans _ (subtract_foldl_spec y x hx.1).1

theorem contains_difference (x y : SpanSet) (hx : Normalized x) (hy : Normalized y) (i : Nat) :
    contains (difference x y) i ↔ contains x i ∧ ¬ contains y i := by
  rw [difference, contains_from_spans _ (subtract_foldl_spec y x hx.1).1 i]
  have h1 : ∀ j, (∃ s ∈ y.foldl (fun ps b => ps.flatMap (fun a => spanMinus a b)) x,
      s.low ≤ j ∧ j ≤ s.high) = contains (y.foldl (fun ps b => ps.flatMap (fun a => spanMinus a b)) x) j := fun j => rfl
  rw [h1 i, (subtract_foldl_spec y x hx.1).2 i]
  simp only [contains]
  constructor
  · rintro ⟨h2, h3⟩
    refine ⟨h2, ?_⟩
    rintro ⟨s, hs, h4, h5⟩
    exact h3 s hs ⟨h4, h5⟩
  · rintro ⟨h2, h3⟩
    exact ⟨h2, fun s hs h4 => h3 ⟨s, hs, h4.1, h4.2⟩⟩

end SpanSet

namespace SpanSet

theorem normalized_ext :
    ∀ (x y : SpanSet), Normalized x → Normalized y →
      (∀ i, contains x i ↔ contains y i) → x = y := by
  intro x
  induction x with
  | nil =>
    intro y hx hy h
    cases y with
    | nil => rfl
    | cons b y2 =>
      exact absurd ((h b.high).mpr (contains_head_high hy)) (contains_nil b.high)
  | cons a x2 ih =>
    intro y hx hy h
    cases y with
    | nil =>
      exact absurd ((h a.high).mp (contains_head_high hx)) (contains_nil a.high)
    | cons b y2 =>
      have hva : a.low ≤ a.high := hx.head_valid
      have hvb : b.low ≤ b.high := hy.head_valid
      have hh : a.high = b.high :=
        Nat.le_antisymm
          (contains_le_high hy ((h a.high).mp (contains_head_high hx)))
          (contains_le_high hx ((h b.high).mpr (contains_head_high hy)))
      have hl : a.low = b.low := by
        rcases Nat.lt_trichotomy a.low b.low with hlt | heq | hgt
        · have h1 : contains (a :: x2) (b.low - 1) :=
            contains_cons.mpr (Or.inl ⟨by omega, by omega⟩)
          exact absurd ((h _).mp h1) (not_contains_pred hy (by omega))
        · exact heq
        · have h1 : contains (b :: y2) (a.low - 1) :=
            contains_cons.mpr (Or.inl ⟨by omega, by omega⟩)
          exact absurd ((h _).mpr h1) (not_contains_pred hx (by omega))
      have ht : ∀ i, contains x2 i ↔ contains y2 i := by
        intro i
        constructor
        · intro hi
          have hia := contains_tail_lt hx hi
          have h2 : contains (b :: y2) i := (h i).mp (contains_cons.mpr (Or.inr hi))
          rcases contains_cons.mp h2 with ⟨h3, h4⟩ | h5
          · omega
          · exact h5
        · intro hi
          have hib := contains_tail_lt hy hi
          have h2 : contains (a :: x2) i := (h i).mpr (contains_cons.mpr (Or.inr hi))
          rcases contains_cons.mp h2 with ⟨h3, h4⟩ | h5
          · omega
          · exact h5
      have heq2 : x2 = y2 := ih y2 hx.tail hy.tail ht
      have heq1 : a = b := by
        cases a
        cases b
        simp only at hh hl
        rw [hh, hl]
      rw [heq1, heq2]

theorem fmt_eq_of_same_set {x y : SpanSet} (hx : Normalized x) (hy : Normalized y)
    (h : ∀ i, contains x i ↔ contains y i) : fmt x = fmt y := by
  rw [normalized_ext x y hx hy h]

theorem max_eq_none_iff (x : SpanSet) : max x = none ↔ x = [] := by
  cases x <;> simp [max]

theorem max_mem {x : SpanSet} {m : Nat} (hx : Normalized x) (hm : max x = some m) :
    contains x m := by
  cases x with
  | nil => simp [max] at hm
  | cons a x2 =>
    simp only [max, Option.some_inj] at hm
    subst hm
    exact contains_head_high hx

theorem le_max_of_contains {x : SpanSet} {m i : Nat} (hx : Normalized x)
    (hm : max x = some m) (hi : contains x i) : i ≤ m := by
  cases x with
  | nil => simp [max] at hm
  | cons a x2 =>
    simp only [max, Option.some_inj] at hm
    subst hm
    exact contains_le_high hx hi

theorem max_eq_some_of {x : SpanSet} {m : Nat} (hx : Normalized x)
    (hmem : contains x m) (hub : ∀ i, contains x i → i ≤ m) : max x = some m := by
  cases x with
  | nil => exact absurd hmem (contains_nil m)
  | cons a x2 =>
    simp only [max, Option.some_inj]
    exact Nat.le_antisymm (hub a.high (contains_head_high hx)) (contains_le_high hx hmem)

end SpanSet

theorem contains_setOfPred {n : Nat} {p : Nat → Prop} [DecidablePred p] {i : Nat} :
    SpanSet.contains (setOfPred n p) i ↔ i < n ∧ p i := by
  unfold setOfPred
  rw [SpanSet.contains_from_spans]
  · constructor
    · rintro ⟨s, hs, h1, h2⟩
      simp only [List.mem_map, List.mem_filter, List.mem_range] at hs
      obtain ⟨j, ⟨hj1, hj2⟩, hj3⟩ := hs
      subst hj3
      simp only at h1 h2
      have : i = j := by omega
      subst this
      exact ⟨hj1, of_decide_eq_true hj2⟩
    · rintro ⟨h1, h2⟩
      refine ⟨⟨i, i⟩, ?_, le_rfl, le_rfl⟩
      simp only [List.mem_map, List.mem_filter, List.mem_range]
      exact ⟨i, ⟨h1, decide_eq_true h2⟩, rfl⟩
  · intro s hs
    simp only [List.mem_map] at hs
    obtain ⟨j, hj, hj2⟩ := hs
    subst hj2
    exact le_rfl

theorem normalized_setOfPred (n : Nat) (p : Nat → Prop) [DecidablePred p] :
    SpanSet.Normalized (setOfPred n p) := by
  unfold setOfPred
  refine SpanSet.normalized_from_spans _ ?_
  intro s hs
  simp only [List.mem_map] at hs
  obtain ⟨j, hj, hj2⟩ := hs
  subst hj2
  exact le_rfl

theorem anc_cases_iff {gp : Nat → List Nat} {a b : Nat} :
    Anc gp a b ↔ a = b ∨ ∃ p ∈ gp b, p < b ∧ Anc gp a p := by
  constructor
  · intro h
    cases h with
    | refl => exact Or.inl rfl
    | step hp hlt hanc => exact Or.inr ⟨_, hp, hlt, hanc⟩
  · rintro (rfl | ⟨p, hp, hlt, hanc⟩)
    · exact Anc.refl a
    · exact Anc.step hp hlt hanc

theorem isAncGo_iff (gp : Nat → List Nat) (a : Nat) :
    ∀ (fuel b : Nat), b ≤ fuel → (isAncGo gp a fuel b = true ↔ Anc gp a b) := by
  intro fuel
  induction fuel with
  | zero =>
    intro b hb
    have hb0 : b = 0 := Nat.le_zero.mp hb
    subst hb0
    rw [anc_cases_iff]
    simp [isAncGo]
  | succ fuel ih =>
    intro b hb
    rw [anc_cases_iff]
    simp only [isAncGo, Bool.or_eq_true, beq_iff_eq, List.any_eq_true,
      Bool.and_eq_true, decide_eq_true_eq]
    constructor
    · rintro (h | ⟨p, hp, hlt, hgo⟩)
      · exact Or.inl h
      · exact Or.inr ⟨p, hp, hlt, (ih p (by omega)).mp hgo⟩
    · rintro (h | ⟨p, hp, hlt, hanc⟩)
      · exact Or.inl h
      · exact Or.inr ⟨p, hp, hlt, (ih p (by omega)).mpr hanc⟩

theorem isAnc_iff {gp : Nat → List Nat} {a b : Nat} :
    isAnc gp a b = true ↔ Anc gp a b :=
  isAncGo_iff gp a b b le_rfl

theorem Anc.le {gp : Nat → List Nat} {a b : Nat} (h : Anc gp a b) : a ≤ b := by
  induction h with
  | refl => exact le_rfl
  | step hp hlt hanc ih => omega

theorem Anc.trans_anc {gp : Nat → List Nat} {a b c : Nat}
    (h1 : Anc gp a b) (h2 : Anc gp b c) : Anc gp a c := by
  induction h2 with
  | refl => exact h1
  | step hp hlt hanc ih => exact Anc.step hp hlt ih

theorem isAnc_refl (gp : Nat → List Nat) (a : Nat) : isAnc gp a a = true :=
  isAnc_iff.mpr (Anc.refl a)

namespace Dag

theorem contains_parents {gp : Nat → List Nat} {n : Nat} {S : SpanSet} {i : Nat} :
    SpanSet.contains (parents gp n S) i ↔
      i < n ∧ ∃ j, j < n ∧ SpanSet.contains S j ∧ i ∈ gp j := by
  rw [parents, contains_setOfPred]
  simp [List.mem_range]

theorem contains_children {gp : Nat → List Nat} {n : Nat} {S : SpanSet} {i : Nat} :
    SpanSet.contains (children gp n S) i ↔
      i < n ∧ ∃ p ∈ gp i, SpanSet.contains S p := by
  rw [children, contains_setOfPred]

theorem contains_heads {gp : Nat → List Nat} {n : Nat} {S : SpanSet} {i : Nat} :
    SpanSet.contains (heads gp n S) i ↔
      i < n ∧ SpanSet.contains S i ∧
        ∀ j, j < n → SpanSet.contains S j → i ∉ gp j := by
  rw [heads, contains_setOfPred]
  simp [List.mem_range]

theorem contains_roots {gp : Nat → List Nat} {n : Nat} {S : SpanSet} {i : Nat} :
    SpanSet.contains (roots gp n S) i ↔
      i < n ∧ SpanSet.contains S i ∧ ∀ p ∈ gp i, ¬ SpanSet.contains S p := by
  rw [roots, contains_setOfPred]

theorem contains_ancestors {gp : Nat → List Nat} {n : Nat} {S : SpanSet} {i : Nat} :
    SpanSet.contains (ancestors gp n S) i ↔
      i < n ∧ ∃ j, j < n ∧ SpanSet.contains S j ∧ Anc gp i j := by
  rw [ancestors, contains_setOfPred]
  simp only [List.mem_range, isAnc_iff]

theorem contains_descendants {gp : Nat → List Nat} {n : Nat} {S : SpanSet} {i : Nat} :
    SpanSet.contains (descendants gp n S) i ↔
      i < n ∧ ∃ j, j < n ∧ SpanSet.contains S j ∧ Anc gp j i := by
  rw [descendants, contains_setOfPred]
  simp only [List.mem_range, isAnc_iff]

theorem contains_all {n i : Nat} : SpanSet.contains (all n) i ↔ i < n := by
  unfold all
  split
  · rename_i h
    subst h
    simp [SpanSet.contains]
  · rename_i h
    simp only [SpanSet.contains, List.mem_singleton]
    constructor
    · rintro ⟨s, rfl, h1, h2⟩
      have h3 : i ≤ n - 1 := h2
      omega
    · intro hi
      exact ⟨⟨0, n - 1⟩, rfl, Nat.zero_le i, show i ≤ n - 1 by omega⟩

theorem normalized_all (n : Nat) : SpanSet.Normalized (all n) := by
  unfold all
  split
  · exact SpanSet.Normalized.nil
  · rename_i h
    refine ⟨?_, by simp⟩
    intro s hs
    simp only [List.mem_singleton] at hs
    subst hs
    exact Nat.zero_le (n - 1)

theorem contains_gca_all {gp : Nat → List Nat} {n : Nat} {a b m : Nat} :
    SpanSet.contains (gca_all gp n a b) m ↔
      m < n ∧ (a < n ∧ Anc gp m a) ∧ (b < n ∧ Anc gp m b) ∧
        ∀ j, j < n → (Anc gp j a ∧ Anc gp j b) → m ∉ gp j := by
  have hsingle : ∀ (c j : Nat), SpanSet.contains [(⟨c, c⟩ : Span)] j ↔ j = c := by
    intro c j
    simp only [SpanSet.contains, List.mem_singleton]
    constructor
    · rintro ⟨s, rfl, h1, h2⟩
      exact Nat.le_antisymm h2 h1
    · rintro rfl
      exact ⟨⟨j, j⟩, rfl, le_rfl, le_rfl⟩
  have hinter : ∀ j, SpanSet.contains
      (SpanSet.intersection (ancestors gp n [⟨a, a⟩]) (ancestors gp n [⟨b, b⟩])) j ↔
      (j < n ∧ (a < n ∧ Anc gp j a) ∧ (b < n ∧ Anc gp j b)) := by
    intro j
    rw [SpanSet.contains_intersection, contains_ancestors, contains_ancestors]
    constructor
    · rintro ⟨⟨hj, i1, hi1, hc1, hanc1⟩, ⟨hj2, i2, hi2, hc2, hanc2⟩⟩
      rw [hsingle a i1] at hc1
      rw [hsingle b i2] at hc2
      subst hc1
      subst hc2
      exact ⟨hj, ⟨hi1, hanc1⟩, hi2, hanc2⟩
    · rintro ⟨hj, ⟨hma, hanc1⟩, hmb, hanc2⟩
      exact ⟨⟨hj, a, hma, (hsingle a a).mpr rfl, hanc1⟩,
             ⟨hj, b, hmb, (hsingle b b).mpr rfl, hanc2⟩⟩
  rw [gca_all, contains_heads]
  constructor
  · rintro ⟨hm, hmem, hall⟩
    rw [hinter m] at hmem
    refine ⟨hm, hmem.2.1, hmem.2.2, ?_⟩
    intro j hj hjc
    exact hall j hj ((hinter j).mpr ⟨hj, ⟨hmem.2.1.1, hjc.1⟩, hmem.2.2.1, hjc.2⟩)
  · rintro ⟨hm, ⟨hma, hanc1⟩, ⟨hmb, hanc2⟩, hall⟩
    refine ⟨hm, (hinter m).mpr ⟨hm, ⟨hma, hanc1⟩, hmb, hanc2⟩, ?_⟩
    intro j hj hjc
    rw [hinter j] at hjc
    exact hall j hj ⟨hjc.2.1.2, hjc.2.2.2⟩

theorem normalized_gca_all (gp : Nat → List Nat) (n a b : Nat) :
    SpanSet.Normalized (gca_all gp n a b) :=
  normalized_setOfPred n _

end Dag

namespace Dag

theorem mem_segStarts {gp : Nat → List Nat} {n i : Nat} :
    i ∈ segStarts gp n ↔ i < n ∧ (i = 0 ∨ gp i ≠ [i - 1]) := by
  unfold segStarts
  rw [List.mem_filter, List.mem_range]
  simp only [decide_eq_true_eq]

theorem segStarts_sorted (gp : Nat → List Nat) (n : Nat) :
    List.Pairwise (· < ·) (segStarts gp n) :=
  (List.pairwise_lt_range n).filter _

theorem flatFromStarts_spec (gp : Nat → List Nat) (n : Nat) :
    ∀ (l : List Nat), List.Pairwise (· < ·) l → (∀ x ∈ l, x < n) →
      ∀ seg ∈ flatFromStarts gp n l,
        seg.low ∈ l ∧ seg.parents = gp seg.low ∧ seg.root = (gp seg.low).isEmpty ∧
        seg.high < n ∧ (∀ i, seg.low < i → i ≤ seg.high → i ∉ l) := by
  intro l
  induction l with
  | nil =>
    intro _ _ seg hseg
    simp [flatFromStarts] at hseg
  | cons s rest ih =>
    intro hsort hlt seg hseg
    cases rest with
    | nil =>
      simp only [flatFromStarts, List.mem_singleton] at hseg
      subst hseg
      have hsn : s < n := hlt s (List.mem_cons_self s [])
      refine ⟨List.mem_cons_self s [], rfl, rfl, by show n - 1 < n; omega, ?_⟩
      intro i hi1 hi2 hmem
      have h2 : i ≤ n - 1 := hi2
      have h3 : s < i := hi1
      rcases List.mem_singleton.mp hmem with rfl
      omega
    | cons s2 rest2 =>
      have hpc := List.pairwise_cons.mp hsort
      have hs12 : s < s2 := hpc.1 s2 (List.mem_cons_self s2 rest2)
      have hpc2 := List.pairwise_cons.mp hpc.2
      simp only [flatFromStarts] at hseg
      rcases List.mem_cons.mp hseg with h | h
      · subst h
        have hs2n : s2 < n := hlt s2 (List.mem_cons_of_mem s (List.mem_cons_self s2 rest2))
        refine ⟨List.mem_cons_self s (s2 :: rest2), rfl, rfl,
          by show s2 - 1 < n; omega, ?_⟩
        intro i hi1 hi2 hmem
        have h3 : s < i := hi1
        have h4 : i ≤ s2 - 1 := hi2
        rcases List.mem_cons.mp hmem with rfl | hmem2
        · omega
        · rcases List.mem_cons.mp hmem2 with rfl | hmem3
          · omega
          · have := hpc2.1 i hmem3
            omega
      · obtain ⟨h1, h2, h3, h4, h5⟩ := ih hpc.2
          (fun x hx => hlt x (List.mem_cons_of_mem s hx)) seg h
        have hlow : s2 ≤ seg.low := by
          rcases List.mem_cons.mp h1 with rfl | hmem
          · exact le_rfl
          · exact Nat.le_of_lt (hpc2.1 seg.low hmem)
        refine ⟨List.mem_cons_of_mem s h1, h2, h3, h4, ?_⟩
        intro i hi1 hi2 hmem
        rcases List.mem_cons.mp hmem with rfl | hmem2
        · omega
        · exact h5 i hi1 hi2 hmem2

theorem build_flat_spec (gp : Nat → List Nat) (n : Nat) :
    ∀ seg ∈ build_flat gp n,
      seg.parents = gp seg.low ∧ seg.root = (gp seg.low).isEmpty ∧
      seg.low < n ∧ seg.high < n ∧
      (∀ i, seg.low < i → i ≤ seg.high → gp i = [i - 1]) := by
  intro seg hseg
  obtain ⟨h1, h2, h3, h4, h5⟩ := flatFromStarts_spec gp n (segStarts gp n)
    (segStarts_sorted gp n) (fun x hx => (mem_segStarts.mp hx).1) seg hseg
  have hlown : seg.low < n := (mem_segStarts.mp h1).1
  refine ⟨h2, h3, hlown, h4, ?_⟩
  intro i hi1 hi2
  have hin : i < n := by omega
  have hnot := h5 i hi1 hi2
  have h6 : ¬ (i < n ∧ (i = 0 ∨ gp i ≠ [i - 1])) := fun hc => hnot (mem_segStarts.mpr hc)
  have h7 : i ≠ 0 := by omega
  by_contra hne
  exact h6 ⟨hin, Or.inr hne⟩

end Dag

theorem SpanSet.contains_single {c j : Nat} :
    SpanSet.contains [(⟨c, c⟩ : Span)] j ↔ j = c := by
  simp only [SpanSet.contains, List.mem_singleton]
  constructor
  · rintro ⟨s, rfl, h1, h2⟩
    exact Nat.le_antisymm h2 h1
  · rintro rfl
    exact ⟨⟨j, j⟩, rfl, le_rfl, le_rfl⟩

theorem normalized_single (c : Nat) : SpanSet.Normalized [(⟨c, c⟩ : Span)] := by
  refine ⟨?_, by simp⟩
  intro s hs
  rcases List.mem_singleton.mp hs with rfl
  exact le_rfl

/-- C8: every SpanSet produced by the public SpanSet operations (empty,
from_spans, push_span, union, intersection, difference) or returned by a query
(parents, children, heads, roots, ancestors, descendants, range, gca_all) is in
canonical normalized form, and two normalized SpanSets having exactly the same
members are identical, hence render byte-for-byte equal under the debug
format. -/
theorem claim_C8 (x y : SpanSet) (l : List Span) (sp : Span)
    (gp : Nat → List Nat) (n : Nat) (S : SpanSet) (a b : Nat)
    (hx : SpanSet.Normalized x) (hy : SpanSet.Normalized y)
    (hsp : sp.valid) (hl : ∀ s ∈ l, s.valid) :
    SpanSet.Normalized SpanSet.empty ∧
    SpanSet.Normalized (SpanSet.from_spans l) ∧
    SpanSet.Normalized (SpanSet.push_span x sp) ∧
    SpanSet.Normalized (SpanSet.union x y) ∧
    SpanSet.Normalized (SpanSet.intersection x y) ∧
    SpanSet.Normalized (SpanSet.difference x y) ∧
    SpanSet.Normalized (Dag.parents gp n S) ∧
    SpanSet.Normalized (Dag.children gp n S) ∧
    SpanSet.Normalized (Dag.heads gp n S) ∧
    SpanSet.Normalized (Dag.roots gp n S) ∧
    SpanSet.Normalized (Dag.ancestors gp n S) ∧
    SpanSet.Normalized (Dag.descendants gp n S) ∧
    SpanSet.Normalized (Dag.range gp n S S) ∧
    SpanSet.Normalized (Dag.all n) ∧
    SpanSet.Normalized (Dag.gca_all gp n a b) ∧
    ((∀ i, SpanSet.contains x i ↔ SpanSet.contains y i) →
      x = y ∧ SpanSet.fmt x = SpanSet.fmt y) := by
  refine ⟨SpanSet.Normalized.nil, SpanSet.normalized_from_spans l hl,
    SpanSet.normalized_push_span x sp hx hsp, SpanSet.normalized_union x y hx hy,
    SpanSet.normalized_intersection x y, SpanSet.normalized_difference x y hx,
    normalized_setOfPred n _, normalized_setOfPred n _, normalized_setOfPred n _,
    normalized_setOfPred n _, normalized_setOfPred n _, normalized_setOfPred n _,
    SpanSet.normalized_intersection _ _, Dag.normalized_all n,
    Dag.normalized_gca_all gp n a b, ?_⟩
  intro h
  have heq := SpanSet.normalized_ext x y hx hy h
  exact ⟨heq, by rw [heq]⟩

/-- C8 witness at concrete inputs. -/
theorem claim_C8_witness :
    SpanSet.Normalized SpanSet.empty ∧
    SpanSet.Normalized (SpanSet.from_spans [⟨3, 5⟩, ⟨0, 1⟩, ⟨4, 9⟩]) ∧
    SpanSet.Normalized (SpanSet.push_span [⟨7, 9⟩, ⟨2, 4⟩] ⟨0, 0⟩) ∧
    SpanSet.Normalized (SpanSet.union [⟨7, 9⟩, ⟨2, 4⟩] [⟨7, 9⟩, ⟨2, 4⟩]) ∧
    SpanSet.Normalized (SpanSet.intersection [⟨7, 9⟩, ⟨2, 4⟩] [⟨7, 9⟩, ⟨2, 4⟩]) ∧
    SpanSet.Normalized (SpanSet.difference [⟨7, 9⟩, ⟨2, 4⟩] [⟨7, 9⟩, ⟨2, 4⟩]) ∧
    SpanSet.Normalized (Dag.parents gpDag1 12 [⟨0, 9⟩]) ∧
    SpanSet.Normalized (Dag.children gpDag1 12 [⟨0, 9⟩]) ∧
    SpanSet.Normalized (Dag.heads gpDag1 12 [⟨0, 9⟩]) ∧
    SpanSet.Normalized (Dag.roots gpDag1 12 [⟨0, 9⟩]) ∧
    SpanSet.Normalized (Dag.ancestors gpDag1 12 [⟨0, 9⟩]) ∧
    SpanSet.Normalized (Dag.descendants gpDag1 12 [⟨0, 9⟩]) ∧
    SpanSet.Normalized (Dag.range gpDag1 12 [⟨0, 9⟩] [⟨0, 9⟩]) ∧
    SpanSet.Normalized (Dag.all 12) ∧
    SpanSet.Normalized (Dag.gca_all gpDag1 12 9 7) ∧
    ((∀ i, SpanSet.contains [⟨7, 9⟩, ⟨2, 4⟩] i ↔ SpanSet.contains [⟨7, 9⟩, ⟨2, 4⟩] i) →
      ([⟨7, 9⟩, ⟨2, 4⟩] : SpanSet) = [⟨7, 9⟩, ⟨2, 4⟩] ∧
      SpanSet.fmt [⟨7, 9⟩, ⟨2, 4⟩] = SpanSet.fmt [⟨7, 9⟩, ⟨2, 4⟩]) :=
  claim_C8 [⟨7, 9⟩, ⟨2, 4⟩] [⟨7, 9⟩, ⟨2, 4⟩] [⟨3, 5⟩, ⟨0, 1⟩, ⟨4, 9⟩] ⟨0, 0⟩
    gpDag1 12 [⟨0, 9⟩] 9 7 (by decide) (by decide) (by decide) (by decide)

/-- C2: for every SpanSet S of valid ids, descendants(S) equals
range(S, all()) and ancestors(S) equals range(all(), S). -/
theorem claim_C2 (gp : Nat → List Nat) (n : Nat) (S : SpanSet)
    (h1 : SpanSet.Normalized S) (h2 : ∀ s ∈ S, s.high < n) :
    Dag.descendants gp n S = Dag.range gp n S (Dag.all n) ∧
    Dag.ancestors gp n S = Dag.range gp n (Dag.all n) S := by
  constructor
  · refine SpanSet.normalized_ext _ _ ?_ ?_ ?_
    · exact normalized_setOfPred n _
    · exact SpanSet.normalized_intersection _ _
    intro i
    rw [Dag.contains_descendants, Dag.range, SpanSet.contains_intersection,
      Dag.contains_descendants, Dag.contains_ancestors]
    constructor
    · rintro ⟨hi, j, hj, hcj, hanc⟩
      exact ⟨⟨hi, j, hj, hcj, hanc⟩, hi, i, hi, Dag.contains_all.mpr hi, Anc.refl i⟩
    · rintro ⟨⟨hi, j, hj, hcj, hanc⟩, _⟩
      exact ⟨hi, j, hj, hcj, hanc⟩
  · refine SpanSet.normalized_ext _ _ ?_ ?_ ?_
    · exact normalized_setOfPred n _
    · exact SpanSet.normalized_intersection _ _
    intro i
    rw [Dag.contains_ancestors, Dag.range, SpanSet.contains_intersection,
      Dag.contains_descendants, Dag.contains_ancestors]
    constructor
    · rintro ⟨hi, j, hj, hcj, hanc⟩
      exact ⟨⟨hi, i, hi, Dag.contains_all.mpr hi, Anc.refl i⟩, hi, j, hj, hcj, hanc⟩
    · rintro ⟨_, hi, j, hj, hcj, hanc⟩
      exact ⟨hi, j, hj, hcj, hanc⟩

/-- C2 witness at concrete inputs. -/
theorem claim_C2_witness :
    Dag.descendants gpDag1 12 [⟨2, 3⟩] = Dag.range gpDag1 12 [⟨2, 3⟩] (Dag.all 12) ∧
    Dag.ancestors gpDag1 12 [⟨2, 3⟩] = Dag.range gpDag1 12 (Dag.all 12) [⟨2, 3⟩] :=
  claim_C2 gpDag1 12 [⟨2, 3⟩] (by decide) (by decide)

/-- C6: for every SpanSet S of valid ids, heads(S) equals S minus parents(S)
and roots(S) equals S minus children(S). -/
theorem claim_C6 (gp : Nat → List Nat) (n : Nat) (S : SpanSet)
    (h1 : SpanSet.Normalized S) (h2 : ∀ s ∈ S, s.high < n) :
    Dag.heads gp n S = SpanSet.difference S (Dag.parents gp n S) ∧
    Dag.roots gp n S = SpanSet.difference S (Dag.children gp n S) := by
  have hSn : ∀ i, SpanSet.contains S i → i < n := by
    rintro i ⟨s, hs, h3, h4⟩
    exact lt_of_le_of_lt h4 (h2 s hs)
  constructor
  · refine SpanSet.normalized_ext _ _ ?_ ?_ ?_
    · exact normalized_setOfPred n _
    · exact SpanSet.normalized_difference S _ h1
    intro i
    rw [Dag.contains_heads,
      SpanSet.contains_difference S (Dag.parents gp n S) h1 (normalized_setOfPred n _) i,
      Dag.contains_parents]
    constructor
    · rintro ⟨hi, hS, hall⟩
      refine ⟨hS, ?_⟩
      rintro ⟨hi2, j, hj, hSj, hmem⟩
      exact hall j hj hSj hmem
    · rintro ⟨hS, hnc⟩
      refine ⟨hSn i hS, hS, ?_⟩
      intro j hj hSj hmem
      exact hnc ⟨hSn i hS, j, hj, hSj, hmem⟩
  · refine SpanSet.normalized_ext _ _ ?_ ?_ ?_
    · exact normalized_setOfPred n _
    · exact SpanSet.normalized_difference S _ h1
    intro i
    rw [Dag.contains_roots,
      SpanSet.contains_difference S (Dag.children gp n S) h1 (normalized_setOfPred n _) i,
      Dag.contains_children]
    constructor
    · rintro ⟨hi, hS, hall⟩
      refine ⟨hS, ?_⟩
      rintro ⟨hi2, p, hp, hSp⟩
      exact hall p hp hSp
    · rintro ⟨hS, hnc⟩
      refine ⟨hSn i hS, hS, ?_⟩
      intro p hp hSp
      exact hnc ⟨hSn i hS, p, hp, hSp⟩

/-- C6 witness at concrete inputs taken from test_heads and test_roots. -/
theorem claim_C6_witness :
    Dag.heads gpHeads 12 [⟨0, 11⟩] =
      SpanSet.difference [⟨0, 11⟩] (Dag.parents gpHeads 12 [⟨0, 11⟩]) ∧
    Dag.roots gpHeads 12 [⟨0, 11⟩] =
      SpanSet.difference [⟨0, 11⟩] (Dag.children gpHeads 12 [⟨0, 11⟩]) :=
  claim_C6 gpHeads 12 [⟨0, 11⟩] (by decide) (by decide)

/-- C10: parents, children, heads and roots applied to the empty SpanSet on a
non-empty Dag return the empty SpanSet, which prints as the empty string. -/
theorem claim_C10 (gp : Nat → List Nat) (n : Nat) (hn : 0 < n) :
    Dag.parents gp n SpanSet.empty = SpanSet.empty ∧
    Dag.children gp n SpanSet.empty = SpanSet.empty ∧
    Dag.heads gp n SpanSet.empty = SpanSet.empty ∧
    Dag.roots gp n SpanSet.empty = SpanSet.empty ∧
    SpanSet.fmt SpanSet.empty = "" := by
  have hne : ∀ j, ¬ SpanSet.contains SpanSet.empty j := fun j => SpanSet.contains_nil j
  refine ⟨?_, ?_, ?_, ?_, rfl⟩
  · refine SpanSet.normalized_ext _ _ ?_ ?_ ?_
    · exact normalized_setOfPred n _
    · exact SpanSet.Normalized.nil
    intro i
    rw [Dag.contains_parents]
    constructor
    · rintro ⟨hi, j, hj, hcj, hmem⟩
      exact absurd hcj (hne j)
    · intro h
      exact absurd h (SpanSet.contains_nil i)
  · refine SpanSet.normalized_ext _ _ ?_ ?_ ?_
    · exact normalized_setOfPred n _
    · exact SpanSet.Normalized.nil
    intro i
    rw [Dag.contains_children]
    constructor
    · rintro ⟨hi, p, hp, hcp⟩
      exact absurd hcp (hne p)
    · intro h
      exact absurd h (SpanSet.contains_nil i)
  · refine SpanSet.normalized_ext _ _ ?_ ?_ ?_
    · exact normalized_setOfPred n _
    · exact SpanSet.Normalized.nil
    intro i
    rw [Dag.contains_heads]
    constructor
    · rintro ⟨hi, hc, hall⟩
      exact absurd hc (hne i)
    · intro h
      exact absurd h (SpanSet.contains_nil i)
  · refine SpanSet.normalized_ext _ _ ?_ ?_ ?_
    · exact normalized_setOfPred n _
    · exact SpanSet.Normalized.nil
    intro i
    rw [Dag.contains_roots]
    constructor
    · rintro ⟨hi, hc, hall⟩
      exact absurd hc (hne i)
    · intro h
      exact absurd h (SpanSet.contains_nil i)

/-- C10 witness at a concrete non-empty dag. -/
theorem claim_C10_witness :
    Dag.parents gpDag1 12 SpanSet.empty = SpanSet.empty ∧
    Dag.children gpDag1 12 SpanSet.empty = SpanSet.empty ∧
    Dag.heads gpDag1 12 SpanSet.empty = SpanSet.empty ∧
    Dag.roots gpDag1 12 SpanSet.empty = SpanSet.empty ∧
    SpanSet.fmt SpanSet.empty = "" :=
  claim_C10 gpDag1 12 (by decide)

/-- C1: for every pair of valid ids (a, b), gca_one((a, b)) returns none
exactly when gca_all((a, b)) is empty, and otherwise returns the element of
gca_all((a, b)) with the largest id. -/
theorem claim_C1 (gp : Nat → List Nat) (n : Nat) (a b : Nat)
    (ha : a < n) (hb : b < n) :
    (Dag.gca_one gp n a b = none ↔ Dag.gca_all gp n a b = SpanSet.empty) ∧
    ∀ m, Dag.gca_one gp n a b = some m →
      SpanSet.contains (Dag.gca_all gp n a b) m ∧
      ∀ x, SpanSet.contains (Dag.gca_all gp n a b) x → x ≤ m := by
  have hnorm := Dag.normalized_gca_all gp n a b
  constructor
  · rw [Dag.gca_one, SpanSet.max_eq_none_iff]
    exact Iff.rfl
  · intro m hm
    rw [Dag.gca_one] at hm
    exact ⟨SpanSet.max_mem hnorm hm,
      fun x hx => SpanSet.le_max_of_contains hnorm hm hx⟩

/-- C1 witness at the concrete pair (2, 3) of the test diamond. -/
theorem claim_C1_witness :
    (Dag.gca_one gpDia 4 2 3 = none ↔ Dag.gca_all gpDia 4 2 3 = SpanSet.empty) ∧
    ∀ m, Dag.gca_one gpDia 4 2 3 = some m →
      SpanSet.contains (Dag.gca_all gpDia 4 2 3) m ∧
      ∀ x, SpanSet.contains (Dag.gca_all gpDia 4 2 3) x → x ≤ m :=
  claim_C1 gpDia 4 2 3 (by decide) (by decide)

/-- C9: for every pair of valid ids (a, b), is_ancestor(b, a) holds exactly
when gca_one((a, b)) equals some b, and is_ancestor(a, a) always holds. -/
theorem claim_C9 (gp : Nat → List Nat) (n : Nat) (a b : Nat)
    (hv : ∀ j ∈ List.range n, ∀ p ∈ gp j, p < j) (ha : a < n) (hb : b < n) :
    (Dag.is_ancestor gp n b a = true ↔ Dag.gca_one gp n a b = some b) ∧
    Dag.is_ancestor gp n a a = true := by
  have hnorm := Dag.normalized_gca_all gp n a b
  refine ⟨?_, isAnc_refl gp a⟩
  rw [Dag.is_ancestor, isAnc_iff, Dag.gca_one]
  constructor
  · intro h
    have hmem : SpanSet.contains (Dag.gca_all gp n a b) b := by
      rw [Dag.contains_gca_all]
      refine ⟨hb, ⟨ha, h⟩, ⟨hb, Anc.refl b⟩, ?_⟩
      intro j hj hjc hmemgp
      have hlt := hv j (List.mem_range.mpr hj) b hmemgp
      have hle := (hjc.2).le
      omega
    refine SpanSet.max_eq_some_of hnorm hmem ?_
    intro x hx
    rw [Dag.contains_gca_all] at hx
    exact hx.2.2.1.2.le
  · intro h
    have hmem := SpanSet.max_mem hnorm h
    rw [Dag.contains_gca_all] at hmem
    exact hmem.2.1.2

/-- C9 witness at the concrete pair (10, 3) of ASCII_DAG1. -/
theorem claim_C9_witness :
    (Dag.is_ancestor gpDag1 12 3 10 = true ↔ Dag.gca_one gpDag1 12 10 3 = some 3) ∧
    Dag.is_ancestor gpDag1 12 10 10 = true :=
  claim_C9 gpDag1 12 10 3 (by decide) (by decide) (by decide)

/-- C5: for every id i covered by a level-0 segment with interval low..=high
and external parents P, parents of the singleton of i is the singleton of
i - 1 when i is above low, and the set P when i equals low; on ASCII_DAG1
built with segment_size 3 the parents of the SpanSet 0..=9 print exactly as
0..=6 8. -/
theorem claim_C5 (gp : Nat → List Nat) (n : Nat)
    (hv : ∀ j ∈ List.range n, ∀ p ∈ gp j, p < j)
    (seg : Segment) (hseg : seg ∈ Dag.build_flat gp n) :
    (∀ i, seg.low < i → i ≤ seg.high →
      Dag.parents gp n [⟨i, i⟩] = [⟨i - 1, i - 1⟩]) ∧
    (∀ x, SpanSet.contains (Dag.parents gp n [⟨seg.low, seg.low⟩]) x ↔
      x ∈ seg.parents) ∧
    SpanSet.fmt (Dag.parents gpDag1 12 [⟨0, 9⟩]) = "0..=6 8" := by
  obtain ⟨hpar, hroot, hlown, hhighn, hchain⟩ := Dag.build_flat_spec gp n seg hseg
  refine ⟨?_, ?_, by decide⟩
  · intro i hi1 hi2
    have hin : i < n := by omega
    have hgpi : gp i = [i - 1] := hchain i hi1 hi2
    refine SpanSet.normalized_ext _ _ ?_ ?_ ?_
    · exact normalized_setOfPred n _
    · exact normalized_single (i - 1)
    intro x
    rw [Dag.contains_parents, SpanSet.contains_single]
    constructor
    · rintro ⟨hx, j, hj, hcj, hmem⟩
      rw [SpanSet.contains_single] at hcj
      subst hcj
      rw [hgpi] at hmem
      exact List.mem_singleton.mp hmem
    · rintro rfl
      refine ⟨by omega, i, hin, SpanSet.contains_single.mpr rfl, ?_⟩
      rw [hgpi]
      exact List.mem_singleton.mpr rfl
  · intro x
    rw [Dag.contains_parents, hpar]
    constructor
    · rintro ⟨hx, j, hj, hcj, hmem⟩
      rw [SpanSet.contains_single] at hcj
      subst hcj
      exact hmem
    · intro hmem
      have hxlt : x < seg.low := hv seg.low (List.mem_range.mpr hlown) x hmem
      exact ⟨by omega, seg.low, hlown, SpanSet.contains_single.mpr rfl, hmem⟩

/-- C5 witness at the concrete level-0 segment 4-7 with parents 1 and 3 of
ASCII_DAG1. -/
theorem claim_C5_witness :
    (∀ i, (⟨4, 7, [1, 3], false⟩ : Segment).low < i →
      i ≤ (⟨4, 7, [1, 3], false⟩ : Segment).high →
      Dag.parents gpDag1 12 [⟨i, i⟩] = [⟨i - 1, i - 1⟩]) ∧
    (∀ x, SpanSet.contains (Dag.parents gpDag1 12
        [⟨(⟨4, 7, [1, 3], false⟩ : Segment).low,
          (⟨4, 7, [1, 3], false⟩ : Segment).low⟩]) x ↔
      x ∈ (⟨4, 7, [1, 3], false⟩ : Segment).parents) ∧
    SpanSet.fmt (Dag.parents gpDag1 12 [⟨0, 9⟩]) = "0..=6 8" :=
  claim_C5 gpDag1 12 (by decide) ⟨4, 7, [1, 3], false⟩ (by decide)

/-- C4: building segments for ASCII_DAG1 up to head L with segment_size 3
produces exactly the level-0 segments R0-1[] R2-3[] 4-7[1, 3] 8-9[6]
10-11[7, 9], the level-1 segments R0-7[] 8-11[6, 7] and the level-2 segment
R0-11[]. -/
theorem claim_C4 :
    Dag.build_segments gpDag1 12 3 =
      [[⟨0, 1, [], true⟩, ⟨2, 3, [], true⟩, ⟨4, 7, [1, 3], false⟩,
        ⟨8, 9, [6], false⟩, ⟨10, 11, [7, 9], false⟩],
       [⟨0, 7, [], true⟩, ⟨8, 11, [6, 7], false⟩],
       [⟨0, 11, [], true⟩]] ∧
    Dag.dump (Dag.build_segments gpDag1 12 3) =
      "Lv0: R0-1[] R2-3[] 4-7[1, 3] 8-9[6] 10-11[7, 9]\nLv1: R0-7[] 8-11[6, 7]\nLv2: R0-11[]" := by
  exact ⟨by decide, by decide⟩

/-- C3 counterexample: in the debug dump of ASCII_DAG2 built with
segment_size 3 — whose every level-0 parent list is ascending — the printed
level-1 segment 11-15 carries the parent list 7, 5, 9, which is not in
ascending id order, refuting the claim that parent lists are ascending at
every level of the hierarchy. -/
theorem claim_C3_counterexample :
    Dag.dump (Dag.build_segments gpDag2 23 3) =
      "Lv0: R0-3[] 4-5[1] 6-10[3, 5] 11-12[7] 13-14[5, 9] 15-15[12, 14] 16-17[10, 15] R18-18[] 19-19[4] 20-20[18, 19] 21-22[17, 20]\nLv1: R0-10[] 11-15[7, 5, 9] 16-17[10, 15] R18-20[4] 21-22[17, 20]\nLv2: R0-17[] R18-22[4, 17]\nLv3: R0-22[]" ∧
    (((Dag.build_segments gpDag2 23 3).getD 1 []).getD 1 ⟨0, 0, [], false⟩).parents
      = [7, 5, 9] ∧
    Segment.fmt (((Dag.build_segments gpDag2 23 3).getD 1 []).getD 1 ⟨0, 0, [], false⟩)
      = "11-15[7, 5, 9]" ∧
    ¬ List.Sorted (· ≤ ·) [7, 5, 9] := by
  exact ⟨by decide, by decide, by decide, by decide⟩

/-- C3 (amended): every printed segment is rendered as low-high[p1, p2, ...],
prefixed with R exactly when its root flag is set; a level-0 segment's parent
list is the parent callback's list of its low id in callback order and its
root flag is set exactly when that list is empty, but parent lists are not in
ascending id order in general (higher-level lists are in first-occurrence
order, as the golden dump of ASCII_DAG2 shows). -/
theorem claim_C3_amended :
    (∀ s : Segment, Segment.fmt s =
      (if s.root then "R" else "") ++ toString s.low ++ "-" ++ toString s.high
        ++ "[" ++ String.intercalate ", " (s.parents.map toString) ++ "]") ∧
    (∀ (gp : Nat → List Nat) (n : Nat), ∀ seg ∈ Dag.build_flat gp n,
      seg.parents = gp seg.low ∧ (seg.root = true ↔ gp seg.low = [])) ∧
    Dag.dump (Dag.build_segments gpDag2 23 3) =
      "Lv0: R0-3[] 4-5[1] 6-10[3, 5] 11-12[7] 13-14[5, 9] 15-15[12, 14] 16-17[10, 15] R18-18[] 19-19[4] 20-20[18, 19] 21-22[17, 20]\nLv1: R0-10[] 11-15[7, 5, 9] 16-17[10, 15] R18-20[4] 21-22[17, 20]\nLv2: R0-17[] R18-22[4, 17]\nLv3: R0-22[]" := by
  refine ⟨fun s => rfl, ?_, by decide⟩
  intro gp n seg hseg
  obtain ⟨hpar, hroot, _, _, _⟩ := Dag.build_flat_spec gp n seg hseg
  refine ⟨hpar, ?_⟩
  rw [hroot]
  exact List.isEmpty_iff

/-- C3 amended witness at a concrete level-0 segment of ASCII_DAG2. -/
theorem claim_C3_amended_witness :
    Segment.fmt ⟨11, 15, [7, 5, 9], false⟩ =
      (if false then "R" else "") ++ toString 11 ++ "-" ++ toString 15
        ++ "[" ++ String.intercalate ", " ([7, 5, 9].map toString) ++ "]" ∧
    ((⟨6, 10, [3, 5], false⟩ : Segment).parents = gpDag2 (⟨6, 10, [3, 5], false⟩ : Segment).low ∧
      ((⟨6, 10, [3, 5], false⟩ : Segment).root = true ↔
        gpDag2 (⟨6, 10, [3, 5], false⟩ : Segment).low = [])) :=
  ⟨(claim_C3_amended.1 ⟨11, 15, [7, 5, 9], false⟩),
   (claim_C3_amended.2.1 gpDag2 23 ⟨6, 10, [3, 5], false⟩ (by decide))⟩

/-- C7 counterexample: on the diamond graph literally described by the claim
(edges A to B, A to D, B to C, D to C; ids A=0 B=1 D=2 C=3 under the
deterministic assignment from head C), gca_all(C, D) is the one-element set
containing D only, printed as 2, and gca_one(C, D) is some D — not the claimed
two-element set printed 0 1 with gca_one some 1. -/
theorem claim_C7_counterexample :
    Dag.gca_all gpDiaClaim 4 3 2 = [⟨2, 2⟩] ∧
    SpanSet.fmt (Dag.gca_all gpDiaClaim 4 3 2) = "2" ∧
    Dag.gca_one gpDiaClaim 4 3 2 = some 2 ∧
    ¬ SpanSet.fmt (Dag.gca_all gpDiaClaim 4 3 2) = "0 1" ∧
    ¬ Dag.gca_one gpDiaClaim 4 3 2 = some 1 := by
  exact ⟨by decide, by decide, by decide, by decide, by decide⟩

/-- C7 (amended): on the graph actually exercised by
test_segment_multiple_gcas — C and D each have both A and B as parents (edges
A to C, B to C, A to D, B to D; ids A=0 B=1 C=2 D=3) — building with
segment_size 3 gives the golden segments, gca_all(C, D) is the two-element set
with elements 1 and 0 (printed ascending as 0 1) and gca_one(C, D) is
some 1. -/
theorem claim_C7_amended :
    Dag.dump (Dag.build_segments gpDia 4 3) =
      "Lv0: R0-0[] R1-1[] 2-2[0, 1] 3-3[0, 1]\nLv1: R0-2[] 3-3[0, 1]" ∧
    Dag.gca_all gpDia 4 2 3 = [⟨0, 1⟩] ∧
    SpanSet.fmt (Dag.gca_all gpDia 4 2 3) = "0 1" ∧
    Dag.gca_one gpDia 4 2 3 = some 1 := by
  exact ⟨by decide, by decide, by decide, by decide⟩

/-- Validation against tests.rs: the gca_one golden values of
test_segment_ancestors_example1. -/
theorem validation_gca_dag1 :
    Dag.gca_one gpDag1 12 10 3 = some 3 ∧ Dag.gca_one gpDag1 12 11 0 = some 0 ∧
    Dag.gca_one gpDag1 12 11 10 = some 10 ∧ Dag.gca_one gpDag1 12 11 9 = some 9 ∧
    Dag.gca_one gpDag1 12 3 0 = none ∧ Dag.gca_one gpDag1 12 7 1 = some 1 ∧
    Dag.gca_one gpDag1 12 9 2 = some 2 ∧ Dag.gca_one gpDag1 12 9 7 = some 6 ∧
    SpanSet.fmt (Dag.gca_all gpDag1 12 9 7) = "6" := by
  exact ⟨by decide, by decide, by decide, by decide, by decide, by decide,
    by decide, by decide, by decide⟩

/-- Validation against tests.rs: golden values of test_parents. -/
theorem validation_parents_dag1 :
    SpanSet.fmt (Dag.parents gpDag1 12 [⟨0, 3⟩]) = "0 2" ∧
    SpanSet.fmt (Dag.parents gpDag1 12
      (SpanSet.from_spans [⟨0, 0⟩, ⟨3, 3⟩, ⟨5, 5⟩, ⟨9, 10⟩])) = "2 4 7 8 9" ∧
    SpanSet.fmt (Dag.parents gpDag1 12
      (SpanSet.from_spans [⟨1, 1⟩, ⟨4, 4⟩, ⟨6, 6⟩, ⟨8, 11⟩])) = "0 1 3 5..=10" := by
  exact ⟨by decide, by decide, by decide⟩

/-- Validation against tests.rs: golden values of test_children. -/
theorem validation_children_dag1 :
    SpanSet.fmt (Dag.children gpDag1 12 [⟨7, 10⟩]) = "9 10 11" ∧
    SpanSet.fmt (Dag.children gpDag1 12 [⟨0, 5⟩]) = "1 3..=6" ∧
    SpanSet.fmt (Dag.children gpDag1 12
      (SpanSet.from_spans [⟨1, 1⟩, ⟨4, 4⟩, ⟨6, 6⟩, ⟨10, 10⟩])) = "4 5 7 8 11" := by
  exact ⟨by decide, by decide, by decide⟩

/-- Validation against tests.rs: golden dump and values of test_heads. -/
theorem validation_heads :
    Dag.dump (Dag.build_segments gpHeads 12 2) =
      "Lv0: R0-2[] R3-4[] 5-5[3] 6-6[4, 5] R7-9[] 10-10[8] 11-11[7]\nLv1: R0-2[] R3-4[] 5-6[3, 4] R7-9[] 10-10[8] 11-11[7]\nLv2: R0-2[] R3-6[] R7-9[] 10-10[8] 11-11[7]" ∧
    SpanSet.fmt (Dag.heads gpHeads 12 [⟨0, 11⟩]) = "2 6 9 10 11" ∧
    SpanSet.fmt (Dag.heads gpHeads 12
      (SpanSet.from_spans [⟨0, 1⟩, ⟨3, 5⟩, ⟨7, 10⟩])) = "1 4 5 9 10" ∧
    SpanSet.fmt (Dag.heads gpHeads 12
      (SpanSet.from_spans [⟨0, 0⟩, ⟨2, 2⟩])) = "0 2" := by
  exact ⟨by decide, by decide, by decide, by decide⟩

/-- Validation against tests.rs: golden dump and values of test_roots. -/
theorem validation_roots :
    Dag.dump (Dag.build_segments gpRoots 12 2) =
      "Lv0: R0-2[] R3-4[] 5-5[3] 6-6[4, 5] R7-7[] R8-8[] 9-9[7, 8] R10-10[] 11-11[9, 10]\nLv1: R0-2[] R3-4[] 5-6[3, 4] R7-7[] R8-9[7] R10-11[9]\nLv2: R0-2[] R3-6[] R7-9[] R10-11[9]\nLv3: R0-2[] R3-6[] R7-11[]" ∧
    SpanSet.fmt (Dag.roots gpRoots 12 [⟨0, 11⟩]) = "0 3 7 8 10" ∧
    SpanSet.fmt (Dag.roots gpRoots 12
      (SpanSet.from_spans [⟨1, 1⟩, ⟨3, 3⟩, ⟨6, 8⟩, ⟨11, 11⟩])) = "1 3 6 7 8 11" := by
  exact ⟨by decide, by decide, by decide⟩

/-- Validation against tests.rs: golden dump and values of test_range. -/
theorem validation_range :
    Dag.dump (Dag.build_segments gpRange 10 2) =
      "Lv0: R0-0[] R1-1[] 2-3[0, 1] R4-4[] R5-5[] 6-6[1, 4, 5] 7-7[2, 6] 8-8[6] 9-9[3, 7, 8]\nLv1: R0-0[] R1-3[0] R4-4[] R5-6[1, 4] 7-7[2, 6] 8-9[6, 3, 7]\nLv2: R0-3[] R4-6[1] 7-9[2, 6, 3]\nLv3: R0-3[] R4-9[1, 2, 3]\nLv4: R0-9[]" ∧
    SpanSet.fmt (Dag.range gpRange 10 [⟨6, 6⟩] [⟨3, 3⟩]) = "" ∧
    SpanSet.fmt (Dag.range gpRange 10 [⟨1, 1⟩]
      (SpanSet.from_spans [⟨3, 3⟩, ⟨8, 8⟩])) = "1 2 3 6 8" ∧
    SpanSet.fmt (Dag.range gpRange 10
      (SpanSet.from_spans [⟨0, 0⟩, ⟨5, 5⟩]) [⟨7, 7⟩]) = "0 2 5 6 7" ∧
    SpanSet.fmt (Dag.range gpRange 10 [⟨1, 1⟩] [⟨9, 9⟩]) = "1 2 3 6..=9" ∧
    SpanSet.fmt (Dag.range gpRange 10
      (SpanSet.from_spans [⟨0, 0⟩, ⟨1, 1⟩, ⟨4, 4⟩, ⟨5, 5⟩])
      (SpanSet.from_spans [⟨3, 3⟩, ⟨7, 7⟩, ⟨8, 8⟩])) = "0..=8" := by
  exact ⟨by decide, by decide, by decide, by decide, by decide, by decide⟩

/-- Validation against tests.rs: the ancestors sets of
test_segment_ancestors_example1; the count golden of the test is the number
of member ids, checked here through the explicit span lists. -/
theorem validation_ancestors_dag1 :
    Dag.ancestors gpDag1 12 [⟨11, 11⟩] = [⟨0, 11⟩] ∧
    Dag.ancestors gpDag1 12 [⟨3, 3⟩] = [⟨2, 3⟩] ∧
    Dag.ancestors gpDag1 12 [⟨2, 2⟩] = [⟨2, 2⟩] ∧
    Dag.ancestors gpDag1 12 [⟨1, 1⟩] = [⟨0, 1⟩] ∧
    Dag.ancestors gpDag1 12 [⟨9, 9⟩] = [⟨8, 9⟩, ⟨0, 6⟩] ∧
    Dag.ancestors gpDag1 12 [⟨7, 7⟩] = [⟨0, 7⟩] := by
  exact ⟨by decide, by decide, by decide, by decide, by decide, by decide⟩
